import Mathlib

/-!
Verification of the RGW tracer lifecycle and span-creation protocol.

The repository slice contains `src/rgw/rgw_tracer.cc`, which defines the
variable `tracing::rgw::tracer`:

  #ifdef HAVE_JAEGER_RGW
  thread_local tracing::Tracer_RGW tracer("rgw");
  #else
  tracing::Tracer_RGW tracer;
  #endif

The `Tracer_RGW` handle type itself (declared in `rgw_tracer.h`) is not part
of this slice, so its span API is modelled from the spec where needed; the
storage declaration above is embedded directly from the source.
-/

namespace RGWTracer

/-- From the source (`rgw_tracer.cc`): the declaration of the variable
`tracing::rgw::tracer` — whether it has `thread_local` storage duration, and
the constructor argument (service name) it is initialized with, if any. -/
structure TracerDecl where
  threadLocal : Bool
  ctorArg : Option String
deriving DecidableEq

/-- From the source: the `#ifdef HAVE_JAEGER_RGW` conditional. With the
backend compiled in, the variable is `thread_local` and constructed with the
literal `"rgw"`; without it, the variable is a plain (process-wide) global
and is default-constructed, with no service-name argument. -/
def tracerDecl (haveJaegerRGW : Bool) : TracerDecl :=
  if haveJaegerRGW then { threadLocal := true, ctorArg := some "rgw" }
  else { threadLocal := false, ctorArg := none }

/-- C++ storage-duration semantics for the declared variable: a
`thread_local` variable denotes one distinct object per execution context
(we use the context id itself as the object's identity), while a plain
global denotes a single object shared by every context (identity `0`,
independent of the context).  `handleId d ctx` is the identity of the object
that reading `tracing::rgw::tracer` (the spec's `current()`) yields in
execution context `ctx`. -/
def handleId (d : TracerDecl) (ctx : Nat) : Nat :=
  if d.threadLocal then ctx else 0

/-- Modelled from the spec: the Span record of the `Tracer_RGW` API (absent
from this slice).  A span carries its operation name, an optional parent
span reference, a completion state, the execution context that created it,
and whether a start timestamp was captured at creation. -/
structure Span where
  name : String
  parent : Option Nat
  completed : Bool
  tid : Nat
  timestamped : Bool
deriving DecidableEq

/-- Modelled from the spec: the state of one Tracer Handle (the
`Tracer_RGW` type, absent from this slice).  `enabled` is the handle's
operating mode; `serviceName` the service name supplied at construction;
`spans` the backend's in-process buffer of spans this handle has created,
a span's id being its index in the buffer. -/
structure Tracer where
  enabled : Bool
  serviceName : Option String
  spans : List Span
deriving DecidableEq

/-- Modelled from the spec: handle construction.  The handle is enabled
exactly when the Backend Capability flag is set and the backend connection
was established; a connection failure at construction silently yields a
handle that is disabled for its whole lifetime. -/
def mkTracer (haveBackend backendOk : Bool) (svc : Option String) : Tracer :=
  { enabled := haveBackend && backendOk, serviceName := svc, spans := [] }

/-- The handle `current()` yields in context `ctx`, as constructed on first
use in that context: built from the declaration the source writes for the
given build, with the service-name argument the source passes there. -/
def constructedTracer (haveJaegerRGW backendOk : Bool) (ctx : Nat) : Tracer :=
  mkTracer haveJaegerRGW backendOk (tracerDecl haveJaegerRGW).ctorArg

/-- Modelled from the spec: the reference `new_span` returns.  `none` is the
lightweight sentinel handed out when the handle is disabled; `some i` refers
to the span with id `i` in the handle's buffer. -/
abbrev SpanRef := Option Nat

/-- Modelled from the spec: `is_enabled()` reports the handle's mode. -/
def isEnabled (t : Tracer) : Bool := t.enabled

/-- Modelled from the spec: `new_span(name, parent?)`.  On a disabled
handle it returns the sentinel reference and touches nothing — no
allocation, no timestamp capture, no backend call.  On an enabled handle it
allocates a fresh span carrying a start timestamp and the requested parent
linkage, appends it to the in-process buffer, and returns its id. -/
def newSpan (t : Tracer) (tid : Nat) (name : String) (parent : SpanRef) :
    Tracer × SpanRef :=
  if t.enabled then
    (⟨t.enabled, t.serviceName,
        t.spans ++ [⟨name, parent, false, tid, true⟩]⟩, some t.spans.length)
  else (t, none)

/-- Mark the span at index `i` completed, leaving every other entry — and a
list too short to contain `i` — unchanged. -/
def markCompleted : List Span → Nat → List Span
  | [], _ => []
  | s :: l, 0 => ⟨s.name, s.parent, true, s.tid, s.timestamped⟩ :: l
  | s :: l, i + 1 => s :: markCompleted l i

/-- Modelled from the spec: span completion.  Completing the sentinel is a
no-op; completing a real reference marks that span completed.  Misuse (an
unknown id, or completing twice) is tolerated, never a fault. -/
def finishSpan (t : Tracer) (r : SpanRef) : Tracer :=
  match r with
  | none => t
  | some i => ⟨t.enabled, t.serviceName, markCompleted t.spans i⟩

/-- An operation request-processing code can issue on its handle. -/
inductive Op where
  | newSpanOp (name : String) (parent : SpanRef)
  | finishOp (r : SpanRef)
deriving DecidableEq

/-- One operation applied to a handle owned by context `tid`. -/
def step (tid : Nat) (t : Tracer) (op : Op) : Tracer :=
  match op with
  | .newSpanOp n p => (newSpan t tid n p).1
  | .finishOp r => finishSpan t r

/-- A sequence of operations applied to a handle owned by context `tid`. -/
def run (tid : Nat) (t : Tracer) (ops : List Op) : Tracer :=
  ops.foldl (step tid) t

theorem markCompleted_nil (i : Nat) : markCompleted [] i = [] := rfl

theorem step_of_disabled (tid : Nat) (t : Tracer) (op : Op)
    (hen : t.enabled = false) (hsp : t.spans = []) : step tid t op = t := by
  obtain ⟨e, s, l⟩ := t
  simp only at hen hsp
  subst hen hsp
  cases op with
  | newSpanOp n p => simp [step, newSpan]
  | finishOp r => cases r <;> simp [step, finishSpan, markCompleted_nil]

theorem run_of_disabled (tid : Nat) (t : Tracer) (ops : List Op)
    (hen : t.enabled = false) (hsp : t.spans = []) : run tid t ops = t := by
  induction ops with
  | nil => rfl
  | cons op ops ih =>
    show run tid (step tid t op) ops = t
    rw [step_of_disabled tid t op hen hsp, ih]

theorem step_enabled (tid : Nat) (t : Tracer) (op : Op) :
    (step tid t op).enabled = t.enabled := by
  cases op with
  | newSpanOp n p =>
    simp only [step, newSpan]
    by_cases h : t.enabled = true
    · simp [h]
    · simp [Bool.not_eq_true] at h; simp [h]
  | finishOp r => cases r <;> simp [step, finishSpan]

theorem run_enabled (tid : Nat) (t : Tracer) (ops : List Op) :
    (run tid t ops).enabled = t.enabled := by
  induction ops generalizing t with
  | nil => rfl
  | cons op ops ih =>
    show (run tid (step tid t op) ops).enabled = t.enabled
    rw [ih, step_enabled]

theorem markCompleted_getElem (l : List Span) (i j : Nat) :
    (markCompleted l i)[j]? =
      if j = i then
        (l[j]?).map fun s => ⟨s.name, s.parent, true, s.tid, s.timestamped⟩
      else l[j]? := by
  induction l generalizing i j with
  | nil => simp [markCompleted]
  | cons s l ih =>
    cases i with
    | zero =>
      cases j with
      | zero => simp [markCompleted]
      | succ j => simp [markCompleted]
    | succ i =>
      cases j with
      | zero => simp [markCompleted]
      | succ j =>
        have hij : j + 1 = i + 1 ↔ j = i := by omega
        rw [show markCompleted (s :: l) (i + 1) = s :: markCompleted l i from rfl]
        simp only [List.getElem?_cons_succ, ih, hij]

/-- Modelled from the spec: a tracer operation as issued from
request-processing code.  The operation acts on the handle only; the state
of the request being served (`outcome`, opaque here) is carried alongside
and is not an input of the tracer. -/
def stepR (tid : Nat) (s : Tracer × Nat) (op : Op) : Tracer × Nat :=
  (step tid s.1 op, s.2)

/-- A sequence of tracer operations interleaved into request handling. -/
def runR (tid : Nat) (s : Tracer × Nat) (ops : List Op) : Tracer × Nat :=
  ops.foldl (stepR tid) s

theorem runR_fst (tid : Nat) (s : Tracer × Nat) (ops : List Op) :
    (runR tid s ops).1 = run tid s.1 ops := by
  induction ops generalizing s with
  | nil => rfl
  | cons op ops ih => exact ih (stepR tid s op)

theorem runR_snd (tid : Nat) (s : Tracer × Nat) (ops : List Op) :
    (runR tid s ops).2 = s.2 := by
  induction ops generalizing s with
  | nil => rfl
  | cons op ops ih => exact ih (stepR tid s op)

/-- **C1 counterexample.**  The claim asserts that `current()` in two
different execution contexts returns distinct handle objects in the
backend-absent build as well.  In that build the source declares a plain
global, so contexts `0` and `1` — distinct contexts — observe the very same
object. -/
theorem current_distinct_fails_without_backend :
    (0 : Nat) ≠ 1 ∧
      handleId (tracerDecl false) 0 = handleId (tracerDecl false) 1 := by
  constructor
  · decide
  · rfl

/-- **C1 (amended).**  `current()` called twice in the same context returns
the same object in either build; two different contexts observe distinct
objects in the backend-present build, but in the backend-absent build every
context observes the one shared global object. -/
theorem current_identity_amended (ctx ctx' : Nat) (hne : ctx ≠ ctx') :
    (∀ hj : Bool, handleId (tracerDecl hj) ctx = handleId (tracerDecl hj) ctx) ∧
      handleId (tracerDecl true) ctx ≠ handleId (tracerDecl true) ctx' ∧
      handleId (tracerDecl false) ctx = handleId (tracerDecl false) ctx' := by
  refine ⟨fun hj => rfl, ?_, rfl⟩
  simpa [handleId, tracerDecl] using hne

/-- **C1 witness.**  The amended statement at contexts `0` and `1`. -/
theorem current_identity_amended_witness :
    (0 : Nat) ≠ 1 ∧
      ((∀ hj : Bool, handleId (tracerDecl hj) 0 = handleId (tracerDecl hj) 0) ∧
        handleId (tracerDecl true) 0 ≠ handleId (tracerDecl true) 1 ∧
        handleId (tracerDecl false) 0 = handleId (tracerDecl false) 1) :=
  ⟨by decide, current_identity_amended 0 1 (by decide)⟩

/-- **C2.**  With the Backend Capability flag false, every handle reports
`is_enabled() = false`; `new_span` leaves the handle's state untouched (no
allocation, no timestamp capture, no backend call) and returns the sentinel
reference; and completing the sentinel later is a no-op on any handle. -/
theorem disabled_newSpan_noop (backendOk : Bool) (svc : Option String)
    (tid : Nat) (name : String) (p : SpanRef) :
    isEnabled (mkTracer false backendOk svc) = false ∧
      newSpan (mkTracer false backendOk svc) tid name p =
        (mkTracer false backendOk svc, none) ∧
      ∀ t : Tracer, finishSpan t none = t := by
  refine ⟨rfl, ?_, fun t => rfl⟩
  simp [newSpan, mkTracer]

/-- **C3.**  In the build without backend support, `current()` still yields
a handle — the one constructed from the source's default-constructed global
declaration — and every sequence of `new_span`/completion operations on it
returns successfully (the operations are total functions) while leaving the
handle exactly as constructed: no observable side effect. -/
theorem no_backend_sequences_noop (backendOk : Bool) (ctx tid : Nat)
    (ops : List Op) :
    isEnabled (constructedTracer false backendOk ctx) = false ∧
      run tid (constructedTracer false backendOk ctx) ops =
        constructedTracer false backendOk ctx := by
  refine ⟨rfl, run_of_disabled tid _ ops rfl rfl⟩

/-- **C4.**  Tracer operations are total functions — none raises an error
to request-processing code.  If the backend connection fails to establish
at construction time (`backendOk = false` with the capability flag set),
the handle is disabled and behaves as a no-op for its entire lifetime: every
operation sequence leaves it unchanged.  And for any handle whatsoever, the
outcome of the request carried alongside the tracer is never altered by
tracer operations. -/
theorem tracer_never_fails_request (svc : Option String) (tid : Nat)
    (ops : List Op) :
    isEnabled (mkTracer true false svc) = false ∧
      run tid (mkTracer true false svc) ops = mkTracer true false svc ∧
      ∀ (t : Tracer) (outcome : Nat),
        (runR tid (t, outcome) ops).2 = outcome := by
  refine ⟨rfl, run_of_disabled tid _ ops rfl rfl, fun t outcome => ?_⟩
  exact runR_snd tid (t, outcome) ops

/-- **C5.**  On an enabled handle, `new_span(name, parent = P)` for an open
span `P` of the same handle returns a reference to a fresh span whose
parent reference equals `P`; and completing `P` before its children is safe:
it changes no span other than `P` itself, and no span's parent linkage. -/
theorem newSpan_parent_linkage (t : Tracer) (tid P : Nat) (name : String)
    (hen : t.enabled = true) (hP : P < t.spans.length)
    (hopen : ∃ sp, t.spans[P]? = some sp ∧ sp.completed = false) :
    (newSpan t tid name (some P)).2 = some t.spans.length ∧
      ((newSpan t tid name (some P)).1.spans[t.spans.length]? =
        some ⟨name, some P, false, tid, true⟩) ∧
      (∀ j, j ≠ P →
        (finishSpan (newSpan t tid name (some P)).1 (some P)).spans[j]? =
          (newSpan t tid name (some P)).1.spans[j]?) ∧
      (∀ j : Nat,
        ((finishSpan (newSpan t tid name (some P)).1 (some P)).spans[j]?).map
            Span.parent =
          ((newSpan t tid name (some P)).1.spans[j]?).map Span.parent) := by
  have hstep : newSpan t tid name (some P) =
      (⟨t.enabled, t.serviceName,
          t.spans ++ [⟨name, some P, false, tid, true⟩]⟩, some t.spans.length) := by
    simp [newSpan, hen]
  refine ⟨by rw [hstep], ?_, ?_, ?_⟩
  · rw [hstep]
    exact List.getElem?_concat_length _ _
  · intro j hj
    rw [hstep]
    simp only [finishSpan]
    rw [markCompleted_getElem]
    simp [hj]
  · intro j
    rw [hstep]
    simp only [finishSpan]
    rw [markCompleted_getElem]
    by_cases hj : j = P
    · rw [if_pos hj]
      cases hx : (t.spans ++ [(⟨name, some P, false, tid, true⟩ : Span)])[j]? <;>
        simp [hx]
    · rw [if_neg hj]

/-- **C5 witness** data: an enabled handle with one open root span. -/
def witTracer : Tracer :=
  ⟨true, some "rgw", [⟨"root", none, false, 0, true⟩]⟩

/-- **C5 witness**: the linkage/safety statement at a concrete handle,
creating a child of the open root span `0`. -/
theorem newSpan_parent_linkage_witness :
    (witTracer.enabled = true ∧ 0 < witTracer.spans.length ∧
      (∃ sp, witTracer.spans[0]? = some sp ∧ sp.completed = false)) ∧
    ((newSpan witTracer 0 "child" (some 0)).2 = some witTracer.spans.length ∧
      ((newSpan witTracer 0 "child" (some 0)).1.spans[witTracer.spans.length]? =
        some ⟨"child", some 0, false, 0, true⟩) ∧
      (∀ j, j ≠ 0 →
        (finishSpan (newSpan witTracer 0 "child" (some 0)).1 (some 0)).spans[j]? =
          (newSpan witTracer 0 "child" (some 0)).1.spans[j]?) ∧
      (∀ j : Nat,
        ((finishSpan (newSpan witTracer 0 "child" (some 0)).1
              (some 0)).spans[j]?).map Span.parent =
          ((newSpan witTracer 0 "child" (some 0)).1.spans[j]?).map
            Span.parent)) :=
  ⟨⟨rfl, by decide, ⟨⟨"root", none, false, 0, true⟩, rfl, rfl⟩⟩,
    newSpan_parent_linkage witTracer 0 0 "child" rfl (by decide)
      ⟨⟨"root", none, false, 0, true⟩, rfl, rfl⟩⟩

/-- **C6.**  The handle's enabled/no-op mode is fixed before any operation
runs: on an enabled-capable build with the connection established it equals
the compile-time capability flag, and no operation of this core ever
changes the mode of any handle. -/
theorem mode_fixed_for_lifetime (hj : Bool) (ctx tid : Nat) (ops : List Op) :
    (run tid (constructedTracer hj true ctx) ops).enabled = hj ∧
      ∀ (t : Tracer) (ops' : List Op),
        isEnabled (run tid t ops') = isEnabled t := by
  constructor
  · rw [run_enabled]
    cases hj <;> rfl
  · intro t ops'
    exact run_enabled tid t ops'

/-- From the source: in the backend-present build the variable is
`thread_local`, so the system's tracer state is one handle per execution
context. -/
def SysState := Nat → Tracer

/-- One scheduled event: context `e.1` performs operation `e.2` on the
handle its `thread_local` declaration binds it to; every other context's
handle is untouched. -/
def sysStep (s : SysState) (e : Nat × Op) : SysState :=
  fun tid => if tid = e.1 then step e.1 (s tid) e.2 else s tid

/-- An arbitrary interleaving of events from many contexts. -/
def sysRun (s : SysState) (tr : List (Nat × Op)) : SysState :=
  tr.foldl sysStep s

/-- Thread-locality: after any interleaving, a context's handle state is
exactly the result of running that context's own subsequence of operations
on its own handle — other contexts' events cannot touch it. -/
theorem sysRun_proj (tr : List (Nat × Op)) (s : SysState) (t : Nat) :
    sysRun s tr t =
      run t (s t) ((tr.filter (fun e => e.1 == t)).map Prod.snd) := by
  induction tr generalizing s with
  | nil => rfl
  | cons e tr ih =>
    show sysRun (sysStep s e) tr t = _
    rw [ih]
    by_cases h : e.1 = t
    · have hb : (e.1 == t) = true := by simp [h]
      rw [List.filter_cons, if_pos hb, List.map_cons]
      have hst : sysStep s e t = step t (s t) e.2 := by
        subst h
        exact if_pos rfl
      rw [hst]
      rfl
    · have hb : ¬((e.1 == t) = true) := by simp [h]
      rw [List.filter_cons, if_neg hb]
      have hst : sysStep s e t = s t := if_neg fun hc => h hc.symm
      rw [hst]

/-- The operations one context issues to build its `k`-th 3-node tree: a
root span, two children parented to the root's returned reference (span id
`3k`), then completion of all three. -/
def treeBlock (k : Nat) : List Op :=
  [Op.newSpanOp "request" none,
   Op.newSpanOp "op" (some (3 * k)),
   Op.newSpanOp "op" (some (3 * k)),
   Op.finishOp (some (3 * k + 1)),
   Op.finishOp (some (3 * k + 2)),
   Op.finishOp (some (3 * k))]

/-- The full per-context workload: `n` consecutive 3-node trees. -/
def scenarioOps : Nat → List Op
  | 0 => []
  | n + 1 => scenarioOps n ++ treeBlock n

/-- The three completed spans of the `k`-th tree as they sit in the buffer
of the handle owned by context `tid`. -/
def treeSpans (tid k : Nat) : List Span :=
  [⟨"request", none, true, tid, true⟩,
   ⟨"op", some (3 * k), true, tid, true⟩,
   ⟨"op", some (3 * k), true, tid, true⟩]

/-- The buffer contents after `n` complete trees. -/
def treesList (tid : Nat) : Nat → List Span
  | 0 => []
  | n + 1 => treesList tid n ++ treeSpans tid n

theorem treesList_length (tid n : Nat) : (treesList tid n).length = 3 * n := by
  induction n with
  | zero => rfl
  | succ n ih =>
    show (treesList tid n ++ treeSpans tid n).length = 3 * (n + 1)
    rw [List.length_append, ih]
    simp [treeSpans]
    omega

theorem markCompleted_append (l l' : List Span) (i : Nat) :
    markCompleted (l ++ l') (l.length + i) = l ++ markCompleted l' i := by
  induction l with
  | nil => simp [Nat.zero_add]
  | cons s l ih =>
    have : (s :: l).length + i = (l.length + i) + 1 := by
      simp [List.length_cons]
      omega
    rw [this]
    show s :: markCompleted (l ++ l') (l.length + i) = s :: (l ++ markCompleted l' i)
    rw [ih]

theorem run_append (tid : Nat) (t : Tracer) (l l' : List Op) :
    run tid t (l ++ l') = run tid (run tid t l) l' := by
  simp [run, List.foldl_append]

theorem run_treeBlock (tid : Nat) (svc : Option String) (n : Nat)
    (L : List Span) (hL : L.length = 3 * n) :
    run tid ⟨true, svc, L⟩ (treeBlock n) = ⟨true, svc, L ++ treeSpans tid n⟩ := by
  have e1 : ∀ (X : List Span) (i : Nat),
      markCompleted (L ++ X) (3 * n + i) = L ++ markCompleted X i := by
    intro X i
    have h := markCompleted_append L X i
    rwa [hL] at h
  have e0 : ∀ X : List Span,
      markCompleted (L ++ X) (3 * n) = L ++ markCompleted X 0 := by
    intro X
    have h := e1 X 0
    rwa [Nat.add_zero] at h
  simp only [treeBlock, run, List.foldl_cons, List.foldl_nil, step, newSpan,
    finishSpan, if_pos, List.append_assoc, List.cons_append, List.nil_append,
    List.singleton_append]
  rw [e1, e1, e0]
  simp [markCompleted, treeSpans]

theorem run_scenario (tid : Nat) (svc : Option String) (n : Nat) :
    run tid ⟨true, svc, []⟩ (scenarioOps n) = ⟨true, svc, treesList tid n⟩ := by
  induction n with
  | zero => rfl
  | succ n ih =>
    rw [show scenarioOps (n + 1) = scenarioOps n ++ treeBlock n from rfl,
      run_append, ih, run_treeBlock tid svc n _ (treesList_length tid n)]
    rfl

theorem treesList_getElem (tid n k : Nat) (hk : k < n) :
    (treesList tid n)[3 * k]? = some ⟨"request", none, true, tid, true⟩ ∧
      (treesList tid n)[3 * k + 1]? = some ⟨"op", some (3 * k), true, tid, true⟩ ∧
      (treesList tid n)[3 * k + 2]? =
        some ⟨"op", some (3 * k), true, tid, true⟩ := by
  induction n with
  | zero => omega
  | succ n ih =>
    have hlen := treesList_length tid n
    simp only [treesList]
    by_cases h : k < n
    · have h0 : 3 * k < (treesList tid n).length := by omega
      have h1 : 3 * k + 1 < (treesList tid n).length := by omega
      have h2 : 3 * k + 2 < (treesList tid n).length := by omega
      rw [List.getElem?_append_left h0, List.getElem?_append_left h1,
        List.getElem?_append_left h2]
      exact ih h
    · have hk' : k = n := by omega
      subst hk'
      refine ⟨?_, ?_, ?_⟩
      · rw [List.getElem?_append_right (by omega), hlen]
        rw [show 3 * k - 3 * k = 0 by omega]
        rfl
      · rw [List.getElem?_append_right (by omega), hlen]
        rw [show 3 * k + 1 - 3 * k = 1 by omega]
        rfl
      · rw [List.getElem?_append_right (by omega), hlen]
        rw [show 3 * k + 2 - 3 * k = 2 by omega]
        rfl

theorem treesList_mem (tid n : Nat) (sp : Span) (h : sp ∈ treesList tid n) :
    sp.tid = tid ∧
      (sp.parent = none ∨ ∃ k, k < n ∧ sp.parent = some (3 * k)) := by
  induction n with
  | zero => cases h
  | succ n ih =>
    simp only [treesList, List.mem_append] at h
    cases h with
    | inl h =>
      obtain ⟨h1, h2⟩ := ih h
      refine ⟨h1, ?_⟩
      rcases h2 with h2 | ⟨k, hk, h2⟩
      · exact Or.inl h2
      · exact Or.inr ⟨k, by omega, h2⟩
    | inr h =>
      simp [treeSpans] at h
      rcases h with h | h <;> subst h
      · exact ⟨rfl, Or.inl rfl⟩
      · exact ⟨rfl, Or.inr ⟨n, by omega, rfl⟩⟩

/-- A span buffer holding exactly `n` independent, completed 3-node trees
created by context `tid`: the `k`-th tree's root sits at id `3k` with no
parent, and its two children follow it, each parented to id `3k`. -/
def wellFormedTrees (tid n : Nat) (l : List Span) : Prop :=
  l.length = 3 * n ∧
    ∀ k, k < n →
      l[3 * k]? = some ⟨"request", none, true, tid, true⟩ ∧
        l[3 * k + 1]? = some ⟨"op", some (3 * k), true, tid, true⟩ ∧
        l[3 * k + 2]? = some ⟨"op", some (3 * k), true, tid, true⟩

/-- **C7.**  For any number `N` of worker contexts and any interleaving of
their events in which each context `t < N` starts from the handle its
`thread_local` declaration gives it and issues the 1000-tree workload
(1000 root spans with two children each, all completed), each context's
handle ends up with exactly 1000 independent 3-node trees, every span it
holds was created by that context, and every parent reference resolves
within the same context's buffer to a span created by that context — never
by a different thread. -/
theorem concurrent_trees (N : Nat) (tr : List (Nat × Op)) (s0 : SysState)
    (h0 : ∀ t, t < N → s0 t = constructedTracer true true t)
    (hproj : ∀ t, t < N →
      (tr.filter (fun e => e.1 == t)).map Prod.snd = scenarioOps 1000) :
    ∀ t, t < N →
      wellFormedTrees t 1000 ((sysRun s0 tr t).spans) ∧
        ∀ sp ∈ (sysRun s0 tr t).spans,
          sp.tid = t ∧
            ∀ p, sp.parent = some p →
              ∃ psp, (sysRun s0 tr t).spans[p]? = some psp ∧ psp.tid = t := by
  intro t ht
  have hrun : sysRun s0 tr t = ⟨true, some "rgw", treesList t 1000⟩ := by
    rw [sysRun_proj, h0 t ht, hproj t ht]
    rw [show constructedTracer true true t = ⟨true, some "rgw", []⟩ from rfl,
      run_scenario]
  rw [hrun]
  constructor
  · exact ⟨treesList_length t 1000, fun k hk => treesList_getElem t 1000 k hk⟩
  · intro sp hsp
    obtain ⟨h1, h2⟩ := treesList_mem t 1000 sp hsp
    refine ⟨h1, fun p hp => ?_⟩
    rcases h2 with h2 | ⟨k, hk, h2⟩
    · rw [h2] at hp
      cases hp
    · rw [h2] at hp
      injection hp with hp'
      subst hp'
      obtain ⟨hreq, hc1, hc2⟩ := treesList_getElem t 1000 k hk
      exact ⟨⟨"request", none, true, t, true⟩, hreq, rfl⟩

/-- **C7 witness** data: a single context `0` running the whole workload. -/
def witTrace : List (Nat × Op) :=
  (scenarioOps 1000).map fun o => ((0 : Nat), o)

/-- **C7 witness** data: the initial per-context handle assignment. -/
def witSys : SysState := fun t => constructedTracer true true t

theorem filter_map_proj (l : List Op) :
    ((l.map fun o => ((0 : Nat), o)).filter (fun e => e.1 == 0)).map
        Prod.snd = l := by
  induction l with
  | nil => rfl
  | cons o l ih =>
    rw [List.map_cons, List.filter_cons]
    have hc : (((0 : Nat), o).1 == 0) = true := by rfl
    rw [if_pos hc, List.map_cons, ih]

/-- **C7 witness**: the concurrent-trees statement instantiated at one
context whose event sequence is the sequential 1000-tree workload. -/
theorem concurrent_trees_witness :
    (∀ t, t < 1 → witSys t = constructedTracer true true t) ∧
      (∀ t, t < 1 →
        (witTrace.filter (fun e => e.1 == t)).map Prod.snd =
          scenarioOps 1000) ∧
      (∀ t, t < 1 →
        wellFormedTrees t 1000 ((sysRun witSys witTrace t).spans) ∧
          ∀ sp ∈ (sysRun witSys witTrace t).spans,
            sp.tid = t ∧
              ∀ p, sp.parent = some p →
                ∃ psp, (sysRun witSys witTrace t).spans[p]? = some psp ∧
                  psp.tid = t) := by
  have h0 : ∀ t, t < 1 → witSys t = constructedTracer true true t :=
    fun t _ => rfl
  have hproj : ∀ t, t < 1 →
      (witTrace.filter (fun e => e.1 == t)).map Prod.snd = scenarioOps 1000 := by
    intro t ht
    have hzero : t = 0 := by omega
    subst hzero
    exact filter_map_proj (scenarioOps 1000)
  exact ⟨h0, hproj, concurrent_trees 1 witTrace witSys h0 hproj⟩

/-- **C8.**  In the build without backend support the source declares the
tracer as a plain (not `thread_local`) global, so every execution context
observes the same handle object. -/
theorem no_backend_single_global (ctx ctx' : Nat) :
    (tracerDecl false).threadLocal = false ∧
      handleId (tracerDecl false) ctx = handleId (tracerDecl false) ctx' :=
  ⟨rfl, rfl⟩

/-- **C9.**  In the backend-present build the source constructs the
(`thread_local`) tracer with the literal service name `"rgw"`, so the
handle of every execution context carries service name `"rgw"`. -/
theorem backend_service_name_rgw (backendOk : Bool) (ctx : Nat) :
    (tracerDecl true).ctorArg = some "rgw" ∧
      (constructedTracer true backendOk ctx).serviceName = some "rgw" :=
  ⟨rfl, rfl⟩

/-- **C10.**  In the build without backend support the tracer is
default-constructed: the source passes no service-name argument, so no
service name is supplied to any backend in that build. -/
theorem no_backend_no_service_name (backendOk : Bool) (ctx : Nat) :
    (tracerDecl false).ctorArg = none ∧
      (constructedTracer false backendOk ctx).serviceName = none :=
  ⟨rfl, rfl⟩

end RGWTracer
